import Mathlib

/-!
Verification of the client-side folder-hierarchy and note-organization core of
the note-taking application (frontend/src/App.tsx and the NoteForm component).

The embedding models the relevant TypeScript functions as pure Lean functions:
- JavaScript numeric fields that distinguish `null` from `undefined` are
  modelled by the inductive `JNum`;
- the hierarchical folder builder `organizeHierarchically` is modelled as a
  left fold over the flat folder list, with the mutable `Map` of children
  lists represented as a function `Nat → List Nat` and the root array as a
  `List Nat`;
- the drag-and-drop handler `handleDragEnd` is modelled as a function from the
  pre-state, the drag event and the network response to the observable
  outcome (issued request, next note list, toast).
-/

namespace NotesApp

/-- A JavaScript optional numeric field, distinguishing `undefined` from
`null` from a number (the `Note.folder_id` field can hold any of the three). -/
inductive JNum where
  | undef
  | null
  | num (n : Nat)
deriving DecidableEq, Repr

/-- Note record as held in client state (`interface Note`). -/
structure Note where
  id : Nat
  title : String
  content : String
  tags : List String
  color : String
  folder_id : JNum
deriving DecidableEq, Repr

/-- Folder record (`interface Folder` in App.tsx).  `parent_id` is only ever
consumed through its JavaScript truthiness and `Map.has`, which treat `null`
and `undefined` alike, so one `Option` suffices for it. -/
structure Folder where
  id : Nat
  name : String
  color : String
  icon : Option String
  parent_id : Option Nat
deriving DecidableEq, Repr

/-! ## Expansion state: `toggleFolder` (App.tsx lines 637-643) -/

/-- `toggleFolder`: `prev.includes(folderId) ? prev.filter(id => id !== folderId)
: [...prev, folderId]`.  A pure function of the previous expanded list. -/
def toggleFolder (prev : List Nat) (folderId : Nat) : List Nat :=
  if prev.contains folderId then
    prev.filter (fun id => id ≠ folderId)
  else
    prev ++ [folderId]

/-! ## Pin state: `togglePin` (App.tsx lines 448-450) and the
`useEffect` that rewrites `localStorage` on every change (lines 444-446). -/

/-- `togglePin`: `prev.includes(id) ? prev.filter(x => x !== id) : [...prev, id]`. -/
def togglePin (prev : List Nat) (id : Nat) : List Nat :=
  if prev.contains id then
    prev.filter (fun x => x ≠ id)
  else
    prev ++ [id]

/-- Client pin state: the React state list plus the contents of the
`localStorage` key `pinned` (as the parsed id list). -/
structure PinState where
  pinnedIds : List Nat
  storage : List Nat
deriving DecidableEq, Repr

/-- One pin toggle followed by the `useEffect([pinnedIds])` hook, which
rewrites the storage key to the serialization of the current list. -/
def pinStep (st : PinState) (id : Nat) : PinState :=
  let p := togglePin st.pinnedIds id
  { pinnedIds := p, storage := p }

/-- The `includes`-guarded conditional of `toggleFolder`, with the Boolean
`contains` test replaced by decidable membership. -/
theorem toggleFolder_eq (S : List Nat) (f : Nat) :
    toggleFolder S f = if f ∈ S then S.filter (fun id => id ≠ f) else S ++ [f] := by
  simp [toggleFolder, List.contains, List.elem_eq_mem]

theorem togglePin_eq (p : List Nat) (i : Nat) :
    togglePin p i = if i ∈ p then p.filter (fun x => x ≠ i) else p ++ [i] := by
  simp [togglePin, List.contains, List.elem_eq_mem]

theorem toggleFolder_mem_self (S : List Nat) (f : Nat) :
    f ∈ toggleFolder S f ↔ f ∉ S := by
  rw [toggleFolder_eq]
  by_cases h : f ∈ S
  · simp [h, List.mem_filter]
  · simp [h]

theorem toggleFolder_mem_other (S : List Nat) (f g : Nat) (hne : g ≠ f) :
    g ∈ toggleFolder S f ↔ g ∈ S := by
  rw [toggleFolder_eq]
  by_cases h : f ∈ S
  · simp [h, List.mem_filter, hne]
  · simp [h, hne]

theorem toggleFolder_twice_mem (S : List Nat) (f x : Nat) :
    x ∈ toggleFolder (toggleFolder S f) f ↔ x ∈ S := by
  by_cases hxf : x = f
  · subst hxf
    rw [toggleFolder_mem_self, toggleFolder_mem_self]
    tauto
  · rw [toggleFolder_mem_other _ _ _ hxf, toggleFolder_mem_other _ _ _ hxf]

/-- C9: toggling folder id `f` flips exactly `f`'s membership in the expanded
set, leaves every other id's membership unchanged, and toggling twice restores
a set with the same membership; the operation is a pure function. -/
theorem toggleFolder_spec (S : List Nat) (f g : Nat) :
    (f ∈ toggleFolder S f ↔ f ∉ S)
    ∧ (g ≠ f → (g ∈ toggleFolder S f ↔ g ∈ S))
    ∧ (∀ x, x ∈ toggleFolder (toggleFolder S f) f ↔ x ∈ S) :=
  ⟨toggleFolder_mem_self S f,
   fun hne => toggleFolder_mem_other S f g hne,
   fun x => toggleFolder_twice_mem S f x⟩

/-- Witness for C9 at `S = [1, 2]`, `f = 2`, `g = 1`. -/
theorem toggleFolder_spec_witness :
    (2 ∈ toggleFolder [1, 2] 2 ↔ 2 ∉ [1, 2])
    ∧ ((1 : Nat) ≠ 2 → (1 ∈ toggleFolder [1, 2] 2 ↔ 1 ∈ [1, 2]))
    ∧ (∀ x, x ∈ toggleFolder (toggleFolder [1, 2] 2) 2 ↔ x ∈ [1, 2]) :=
  toggleFolder_spec [1, 2] 2 1

theorem togglePin_nodup (p : List Nat) (i : Nat) (h : p.Nodup) :
    (togglePin p i).Nodup := by
  rw [togglePin_eq]
  by_cases hi : i ∈ p
  · simp only [hi, if_true]
    exact h.filter _
  · simp only [hi, if_false]
    simpa [List.nodup_append, h] using hi

/-- C10: from a duplicate-free pinned list, any sequence of pin toggles keeps
the list duplicate-free; each step rewrites local storage to the current list;
toggling a pinned id removes every occurrence and toggling an unpinned id
appends it exactly once. -/
theorem togglePin_spec (init : List Nat) (ops : List Nat) (hnd : init.Nodup) :
    ((ops.foldl pinStep ⟨init, init⟩).pinnedIds).Nodup
    ∧ (∀ st : PinState, ∀ i, (pinStep st i).storage = (pinStep st i).pinnedIds)
    ∧ (∀ p : List Nat, ∀ i, i ∈ p → togglePin p i = p.filter (fun x => x ≠ i))
    ∧ (∀ p : List Nat, ∀ i, i ∉ p →
        togglePin p i = p ++ [i] ∧ (p ++ [i]).count i = 1) := by
  refine ⟨?_, fun st i => rfl, ?_, ?_⟩
  · have key : ∀ (l : List Nat) (st : PinState), st.pinnedIds.Nodup →
        ((l.foldl pinStep st).pinnedIds).Nodup := by
      intro l
      induction l with
      | nil => intro st h; exact h
      | cons a t ih =>
        intro st h
        exact ih _ (togglePin_nodup _ _ h)
    exact key ops ⟨init, init⟩ hnd
  · intro p i hi
    simp [togglePin_eq, hi]
  · intro p i hi
    refine ⟨by simp [togglePin_eq, hi], ?_⟩
    have hp : p.count i = 0 := List.count_eq_zero.mpr hi
    simp [List.count_append, hp]

/-- Witness for C10 at `init = [1, 2]`, `ops = [2, 3, 2]`. -/
theorem togglePin_spec_witness :
    ((([2, 3, 2] : List Nat).foldl pinStep ⟨[1, 2], [1, 2]⟩).pinnedIds).Nodup
    ∧ (∀ st : PinState, ∀ i, (pinStep st i).storage = (pinStep st i).pinnedIds)
    ∧ (∀ p : List Nat, ∀ i, i ∈ p → togglePin p i = p.filter (fun x => x ≠ i))
    ∧ (∀ p : List Nat, ∀ i, i ∉ p →
        togglePin p i = p ++ [i] ∧ (p ++ [i]).count i = 1) :=
  togglePin_spec [1, 2] [2, 3, 2] (by decide)

/-! ## Folder tree builder: `organizeHierarchically` (App.tsx lines 591-611)

The TypeScript builds a `Map` from folder id to a node carrying a mutable
`children` array, then for each input folder either pushes its node onto its
parent's `children` (when `folder.parent_id` is truthy and a key of the map)
or onto `rootFolders`.  Since nodes are shared by reference, the resulting
object graph is fully described by the children lists per id and the root id
list; the state below records exactly those, and the two passes become a left
fold over the input list (the first pass contributes the key set, i.e. the
list of input ids). -/

/-- The built hierarchy graph: children ids per folder id (the `Map` node
`children` arrays) plus the ids pushed onto `rootFolders`, both in push
order. -/
structure Hierarchy where
  childMap : Nat → List Nat
  rootFolders : List Nat

/-- The attach condition of the second pass:
`folder.parent_id && folderMap.has(folder.parent_id)`.  JavaScript truthiness
makes a `parent_id` of `0` (like `null`/`undefined`) fail the test. -/
def attaches (ids : List Nat) (f : Folder) : Bool :=
  match f.parent_id with
  | some p => decide (p ≠ 0 ∧ p ∈ ids)
  | none => false

/-- One iteration of the second pass of `organizeHierarchically`. -/
def buildStep (ids : List Nat) (h : Hierarchy) (f : Folder) : Hierarchy :=
  match f.parent_id with
  | some p =>
      if p ≠ 0 ∧ p ∈ ids then
        { h with childMap := fun q => if q = p then h.childMap q ++ [f.id] else h.childMap q }
      else
        { h with rootFolders := h.rootFolders ++ [f.id] }
  | none => { h with rootFolders := h.rootFolders ++ [f.id] }

/-- `organizeHierarchically`: fold the second pass over the input list,
starting from the map with every `children` list empty and no roots. -/
def organizeHierarchically (folders : List Folder) : Hierarchy :=
  folders.foldl (buildStep (folders.map Folder.id)) ⟨fun _ => [], []⟩

theorem buildStep_rootFolders (ids : List Nat) (h : Hierarchy) (f : Folder) :
    (buildStep ids h f).rootFolders
      = if attaches ids f then h.rootFolders else h.rootFolders ++ [f.id] := by
  cases hp : f.parent_id with
  | none => simp [buildStep, attaches, hp]
  | some p =>
    by_cases hc : p ≠ 0 ∧ p ∈ ids
    · simp [buildStep, attaches, hp, hc]
    · simp [buildStep, attaches, hp, hc]

theorem buildStep_childMap (ids : List Nat) (h : Hierarchy) (f : Folder) (q : Nat) :
    (buildStep ids h f).childMap q
      = if attaches ids f ∧ f.parent_id = some q then h.childMap q ++ [f.id]
        else h.childMap q := by
  cases hp : f.parent_id with
  | none => simp [buildStep, attaches, hp]
  | some p =>
    by_cases hc : p ≠ 0 ∧ p ∈ ids
    · by_cases hq : q = p
      · subst hq; simp [buildStep, attaches, hp, hc]
      · simp [buildStep, attaches, hp, hc, hq, Ne.symm hq]
    · simp [buildStep, attaches, hp, hc]

theorem foldl_buildStep_rootFolders (ids : List Nat) (l : List Folder) (h : Hierarchy) :
    (l.foldl (buildStep ids) h).rootFolders
      = h.rootFolders ++ (l.filter (fun f => !attaches ids f)).map Folder.id := by
  induction l generalizing h with
  | nil => simp
  | cons f t ih =>
    rw [List.foldl_cons, ih]
    by_cases ha : attaches ids f
    · simp [buildStep_rootFolders, ha]
    · simp [buildStep_rootFolders, ha]

theorem foldl_buildStep_childMap (ids : List Nat) (l : List Folder) (h : Hierarchy) (q : Nat) :
    (l.foldl (buildStep ids) h).childMap q
      = h.childMap q
        ++ (l.filter (fun f => attaches ids f && f.parent_id == some q)).map Folder.id := by
  induction l generalizing h with
  | nil => simp
  | cons f t ih =>
    rw [List.foldl_cons, ih]
    by_cases ha : attaches ids f
    · by_cases hq : f.parent_id = some q
      · simp [buildStep_childMap, ha, hq]
      · simp [buildStep_childMap, ha, hq]
    · simp [buildStep_childMap, ha]

/-- Closed form of the root list of `organizeHierarchically`. -/
theorem organize_rootFolders (l : List Folder) :
    (organizeHierarchically l).rootFolders
      = (l.filter (fun f => !attaches (l.map Folder.id) f)).map Folder.id := by
  unfold organizeHierarchically
  rw [foldl_buildStep_rootFolders]
  rfl

/-- Closed form of each children list of `organizeHierarchically`. -/
theorem organize_childMap (l : List Folder) (q : Nat) :
    (organizeHierarchically l).childMap q
      = (l.filter (fun f =>
          attaches (l.map Folder.id) f && f.parent_id == some q)).map Folder.id := by
  unfold organizeHierarchically
  rw [foldl_buildStep_childMap]
  rfl

theorem attaches_of_parent (ids : List Nat) (f : Folder) (p : Nat)
    (hp : f.parent_id = some p) :
    attaches ids f = decide (p ≠ 0 ∧ p ∈ ids) := by
  unfold attaches
  rw [hp]

/-- Membership in a children list, in terms of the input records. -/
theorem mem_childMap_iff (l : List Folder) (p c : Nat) :
    c ∈ (organizeHierarchically l).childMap p
      ↔ ∃ f ∈ l, f.id = c ∧ f.parent_id = some p ∧ p ≠ 0 ∧ p ∈ l.map Folder.id := by
  rw [organize_childMap]
  constructor
  · intro hc
    obtain ⟨f, hf, hid⟩ := List.mem_map.mp hc
    obtain ⟨hfl, hcond⟩ := List.mem_filter.mp hf
    rw [Bool.and_eq_true] at hcond
    obtain ⟨hatt, hpar⟩ := hcond
    have hpar' : f.parent_id = some p := by simpa using hpar
    have hpp : p ≠ 0 ∧ p ∈ l.map Folder.id := by
      rw [attaches_of_parent _ f p hpar'] at hatt
      simpa using hatt
    exact ⟨f, hfl, hid, hpar', hpp.1, hpp.2⟩
  · rintro ⟨f, hfl, hid, hpar, hp0, hpin⟩
    refine List.mem_map.mpr ⟨f, List.mem_filter.mpr ⟨hfl, ?_⟩, hid⟩
    rw [Bool.and_eq_true]
    refine ⟨?_, by simpa using hpar⟩
    rw [attaches_of_parent _ f p hpar]
    exact decide_eq_true ⟨hp0, hpin⟩

/-- Membership in the root list, in terms of the input records. -/
theorem mem_rootFolders_iff (l : List Folder) (x : Nat) :
    x ∈ (organizeHierarchically l).rootFolders
      ↔ ∃ f ∈ l, f.id = x ∧ attaches (l.map Folder.id) f = false := by
  rw [organize_rootFolders]
  simp only [List.mem_map, List.mem_filter, Bool.not_eq_true']
  tauto

theorem attaches_perm (l l' : List Folder) (hperm : l.Perm l') (f : Folder) :
    attaches (l.map Folder.id) f = attaches (l'.map Folder.id) f := by
  cases hp : f.parent_id with
  | none =>
    have hnone : ∀ ids : List Nat, attaches ids f = false := fun ids => by
      unfold attaches
      rw [hp]
    rw [hnone, hnone]
  | some p =>
    rw [attaches_of_parent _ f p hp, attaches_of_parent _ f p hp]
    exact decide_eq_decide.mpr
      (and_congr_right fun _ => (hperm.map Folder.id).mem_iff)

/-- Concrete input for the C1 counterexample: a folder with id `0` and a
folder whose `parent_id` is `0`.  JavaScript truthiness sends the child to
the root list even though its parent exists in the input. -/
def cxFolderA : Folder := ⟨0, "a", "#6366f1", none, none⟩

def cxFolderB : Folder := ⟨5, "b", "#6366f1", none, some 0⟩

/-- C1 counterexample: in the input `[{id:0}, {id:5, parent_id:0}]` the folder
`5` has a `parent_id` that equals the id of a folder present in the input, yet
`organizeHierarchically` places it in the root list (the truthiness test
`folder.parent_id && ...` fails for `0`), so the root list is not exactly the
set the claim describes. -/
theorem c1_root_claim_counterexample :
    cxFolderB.parent_id = some cxFolderA.id
    ∧ cxFolderA ∈ [cxFolderA, cxFolderB]
    ∧ cxFolderB.id ∈ (organizeHierarchically [cxFolderA, cxFolderB]).rootFolders := by
  decide

/-- C1 (amended): the root list of `organizeHierarchically` consists exactly
of the folders (in input order) whose `parent_id` is absent, equal to `0`, or
not equal to the id of any folder in the input; in particular a dangling
`parent_id` degrades to root placement rather than being dropped or raising
an error. -/
theorem c1_root_placement (l : List Folder) :
    (organizeHierarchically l).rootFolders
      = (l.filter (fun f =>
          match f.parent_id with
          | none => true
          | some p => decide (p = 0) || !((l.map Folder.id).contains p))).map Folder.id := by
  rw [organize_rootFolders]
  congr 1
  apply List.filter_congr
  intro f _
  cases hp : f.parent_id with
  | none => simp [attaches, hp]
  | some p =>
    by_cases h0 : p = 0
    · simp [attaches, hp, h0, List.contains, List.elem_eq_mem]
    · by_cases hm : p ∈ l.map Folder.id
      · simp [attaches, hp, h0, hm, List.contains, List.elem_eq_mem]
      · simp [attaches, hp, h0, hm, List.contains, List.elem_eq_mem]

/-- Concrete input for the C5 counterexample. -/
def cxFolderC : Folder := ⟨0, "r", "#6366f1", none, none⟩

def cxFolderD : Folder := ⟨1, "c", "#6366f1", none, some 0⟩

/-- C5 counterexample: the claim characterizes the built parent/child
relation as "child `c` is in the children list of parent `p` iff
`c.parent_id = p.id` and `p` is in the input"; for the input
`[{id:0}, {id:1, parent_id:0}]` folder `1` satisfies that condition for
parent `0`, yet the built children list of `0` is empty (truthiness of
`parent_id` `0`), so the claimed characterization is false. -/
theorem c5_characterization_counterexample :
    cxFolderD.parent_id = some cxFolderC.id
    ∧ cxFolderC ∈ [cxFolderC, cxFolderD]
    ∧ (organizeHierarchically [cxFolderC, cxFolderD]).childMap cxFolderC.id = [] := by
  decide

/-- C5 (amended): for every permutation of the flat folder list the built
forest is structurally identical — the root list is a permutation (the same
set of roots), each children list is a permutation (the same parent/child
relation), and the relation is characterized on the input records by:
`c` is a child of `p` iff some input folder has id `c`, `parent_id = some p`,
`p ≠ 0`, and `p` is an id of the input (building from the same list twice is
definitionally identical, the builder being a pure function of its input). -/
theorem c5_perm_invariance (l l' : List Folder) (hperm : l.Perm l') :
    ((organizeHierarchically l).rootFolders).Perm
        ((organizeHierarchically l').rootFolders)
    ∧ (∀ p, ((organizeHierarchically l).childMap p).Perm
        ((organizeHierarchically l').childMap p))
    ∧ (∀ p c, c ∈ (organizeHierarchically l).childMap p
        ↔ ∃ f ∈ l, f.id = c ∧ f.parent_id = some p ∧ p ≠ 0 ∧ p ∈ l.map Folder.id) := by
  refine ⟨?_, ?_, fun p c => mem_childMap_iff l p c⟩
  · rw [organize_rootFolders, organize_rootFolders]
    have hcongr : l.filter (fun f => !attaches (l.map Folder.id) f)
        = l.filter (fun f => !attaches (l'.map Folder.id) f) :=
      List.filter_congr fun f _ => by rw [attaches_perm l l' hperm f]
    rw [hcongr]
    exact (hperm.filter _).map Folder.id
  · intro p
    rw [organize_childMap, organize_childMap]
    have hcongr : l.filter (fun f => attaches (l.map Folder.id) f && f.parent_id == some p)
        = l.filter (fun f => attaches (l'.map Folder.id) f && f.parent_id == some p) :=
      List.filter_congr fun f _ => by rw [attaches_perm l l' hperm f]
    rw [hcongr]
    exact (hperm.filter _).map Folder.id

/-- Witness for C5 at the two-element list `[{id:1}, {id:2, parent_id:1}]`
and its reversal. -/
theorem c5_perm_invariance_witness :
    (([⟨1, "a", "c", none, none⟩, ⟨2, "b", "c", none, some 1⟩] : List Folder).Perm
        [⟨2, "b", "c", none, some 1⟩, ⟨1, "a", "c", none, none⟩])
    ∧ (((organizeHierarchically [⟨1, "a", "c", none, none⟩, ⟨2, "b", "c", none, some 1⟩]).rootFolders).Perm
        ((organizeHierarchically [⟨2, "b", "c", none, some 1⟩, ⟨1, "a", "c", none, none⟩]).rootFolders)
      ∧ (∀ p, ((organizeHierarchically [⟨1, "a", "c", none, none⟩, ⟨2, "b", "c", none, some 1⟩]).childMap p).Perm
          ((organizeHierarchically [⟨2, "b", "c", none, some 1⟩, ⟨1, "a", "c", none, none⟩]).childMap p))
      ∧ (∀ p c, c ∈ (organizeHierarchically [⟨1, "a", "c", none, none⟩, ⟨2, "b", "c", none, some 1⟩]).childMap p
          ↔ ∃ f ∈ ([⟨1, "a", "c", none, none⟩, ⟨2, "b", "c", none, some 1⟩] : List Folder),
              f.id = c ∧ f.parent_id = some p ∧ p ≠ 0
                ∧ p ∈ ([⟨1, "a", "c", none, none⟩, ⟨2, "b", "c", none, some 1⟩] : List Folder).map Folder.id)) :=
  ⟨by decide, c5_perm_invariance _ _ (by decide)⟩

/-! ## Drag and drop: `handleDragEnd` (App.tsx lines 651-704)

The droppable containers registered in the app are exactly the unfiled
section (`useDroppable({id:'unfiled'})`, line 369) and one
`folder-${folder.id}` per folder section (line 270); `DropRef` enumerates
them.  The fetch is modelled by a response parameter: `ok` (2xx), an HTTP
error (the handler throws `'Failed to move note'`), or a transport error
carrying the rejection message. -/

/-- A drop target: the `'unfiled'` container or a `folder-${id}` container. -/
inductive DropRef where
  | unfiled
  | folder (id : Nat)
deriving DecidableEq, Repr

/-- Resolution of the droppable id to `targetFolderId` (lines 662-669):
`null` for `'unfiled'`, the parsed integer for `folder-${id}`. -/
def resolveTarget : DropRef → Option Nat
  | .unfiled => none
  | .folder i => some i

/-- Outcome of the `fetch` in `handleDragEnd`. -/
inductive NetResponse where
  | ok
  | httpError
  | transportError (msg : String)
deriving DecidableEq, Repr

/-- JSON body of the `PUT /api/notes/{id}` request issued by a move. -/
structure NoteUpdateBody where
  title : String
  content : String
  tags : List String
  color : String
  folder_id : Option Nat
deriving DecidableEq, Repr

inductive ToastType where
  | success
  | error
deriving DecidableEq, Repr

structure ToastMsg where
  message : String
  ttype : ToastType
deriving DecidableEq, Repr

/-- The observable outcome of `handleDragEnd`: the issued update request (if
any), the next note list, and the toast set (if any). -/
structure DragEndResult where
  request : Option NoteUpdateBody
  notes : List Note
  toast : Option ToastMsg
deriving DecidableEq, Repr

/-- JavaScript strict equality `note.folder_id === targetFolderId` (line 672),
where the right-hand side is `null` or a number, never `undefined`. -/
def strictEqTarget : JNum → Option Nat → Bool
  | .undef, _ => false
  | .null, none => true
  | .null, some _ => false
  | .num _, none => false
  | .num n, some m => n == m

/-- `targetFolderId || undefined` (line 692): `null` and `0` collapse to
`undefined` in the local state update. -/
def jsOrUndef : Option Nat → JNum
  | none => .undef
  | some n => if n = 0 then .undef else .num n

/-- The success-toast message (lines 695-700): `targetFolderId` is tested for
truthiness, the folder is looked up by id, and a missing folder or falsy name
falls back to `'folder'`. -/
def moveToastMessage (folders : List Folder) : Option Nat → String
  | none => "Note moved to unfiled!"
  | some i =>
      if i = 0 then "Note moved to unfiled!"
      else
        match folders.find? (fun f => f.id == i) with
        | none => "Note moved to folder!"
        | some f => if f.name = "" then "Note moved to folder!"
                    else "Note moved to " ++ f.name ++ "!"

/-- `handleDragEnd`: from the current note list, the drag event (`active` note
id and `over` container) and the network response, compute the request issued,
the next note list and the toast. -/
def handleDragEnd (notes : List Note) (folders : List Folder) (activeId : Nat)
    (over : Option DropRef) (resp : NetResponse) : DragEndResult :=
  match over with
  | none => ⟨none, notes, none⟩
  | some dropRef =>
    match notes.find? (fun n => n.id == activeId) with
    | none => ⟨none, notes, none⟩
    | some note =>
      let targetFolderId := resolveTarget dropRef
      if strictEqTarget note.folder_id targetFolderId then
        ⟨none, notes, none⟩
      else
        let body : NoteUpdateBody :=
          ⟨note.title, note.content, note.tags, note.color, targetFolderId⟩
        match resp with
        | .ok =>
            ⟨some body,
             notes.map (fun n =>
               if n.id == activeId then { n with folder_id := jsOrUndef targetFolderId } else n),
             some ⟨moveToastMessage folders targetFolderId, .success⟩⟩
        | .httpError => ⟨some body, notes, some ⟨"Failed to move note", .error⟩⟩
        | .transportError msg => ⟨some body, notes, some ⟨msg, .error⟩⟩

/-- The semantic folder of a note: `null` and absent both mean unfiled. -/
def semFolder : JNum → Option Nat
  | .undef => none
  | .null => none
  | .num n => some n

/-- Concrete unfiled note (absent `folder_id`) for the C2 counterexample. -/
def cxUndefNote : Note := ⟨1, "T", "C", [], "#fff", .undef⟩

/-- C2 counterexample: an unfiled note whose `folder_id` is absent
(`undefined`) dropped onto the unfiled container resolves to the note's
current (unfiled) folder, yet `handleDragEnd` issues an update request,
because the guard uses strict equality and `undefined === null` is false. -/
theorem c2_noop_counterexample :
    semFolder cxUndefNote.folder_id = resolveTarget .unfiled
    ∧ (handleDragEnd [cxUndefNote] [] 1 (some .unfiled) .ok).request ≠ none := by
  decide

/-- C2 (amended): the drop is a no-op — no request, unchanged notes, no toast
— exactly when the resolved target is strictly equal to the note's current
`folder_id` (`null === null` or equal numbers; an absent `folder_id` compared
with the unfiled target `null` fails the guard and issues a redundant
update). -/
theorem c2_noop_move (notes : List Note) (folders : List Folder) (activeId : Nat)
    (target : DropRef) (resp : NetResponse) (note : Note)
    (hfind : notes.find? (fun n => n.id == activeId) = some note)
    (heq : strictEqTarget note.folder_id (resolveTarget target) = true) :
    handleDragEnd notes folders activeId (some target) resp
      = ⟨none, notes, none⟩ := by
  unfold handleDragEnd
  rw [hfind]
  simp [heq]

/-- Witness for C2 at a note whose `folder_id` is `null`, dropped on the
unfiled container. -/
theorem c2_noop_move_witness :
    ([(⟨1, "T", "C", [], "#fff", .null⟩ : Note)].find? (fun n => n.id == 1)
        = some ⟨1, "T", "C", [], "#fff", .null⟩)
    ∧ strictEqTarget (JNum.null) (resolveTarget .unfiled) = true
    ∧ handleDragEnd [⟨1, "T", "C", [], "#fff", .null⟩] [] 1 (some .unfiled) .ok
        = ⟨none, [⟨1, "T", "C", [], "#fff", .null⟩], none⟩ :=
  ⟨by decide, by decide,
   c2_noop_move [⟨1, "T", "C", [], "#fff", .null⟩] [] 1 .unfiled .ok
     ⟨1, "T", "C", [], "#fff", .null⟩ (by decide) (by decide)⟩

theorem strictEq_imp_sem (v : JNum) (t : Option Nat) :
    strictEqTarget v t = true → semFolder v = t := by
  cases v with
  | undef => intro h; cases h
  | null => cases t with
    | none => intro _; rfl
    | some _ => intro h; cases h
  | num n => cases t with
    | none => intro h; cases h
    | some m =>
      intro h
      have : n = m := by simpa [strictEqTarget] using h
      simp [semFolder, this]

/-- C3: for every note found in the list and every drop target that differs
from the note's current folder, the issued update request carries the note's
`title`, `content`, `tags` and `color` verbatim and `folder_id` equal to the
resolved target; moreover no other field of any note is altered — the note
lists before and after agree on `id`, `title`, `content`, `tags` and `color`
pointwise. -/
theorem c3_move_request_body (notes : List Note) (folders : List Folder)
    (activeId : Nat) (target : DropRef) (resp : NetResponse) (note : Note)
    (hfind : notes.find? (fun n => n.id == activeId) = some note)
    (hne : semFolder note.folder_id ≠ resolveTarget target) :
    (handleDragEnd notes folders activeId (some target) resp).request
        = some ⟨note.title, note.content, note.tags, note.color, resolveTarget target⟩
    ∧ ((handleDragEnd notes folders activeId (some target) resp).notes.map Note.id
          = notes.map Note.id
        ∧ (handleDragEnd notes folders activeId (some target) resp).notes.map Note.title
          = notes.map Note.title
        ∧ (handleDragEnd notes folders activeId (some target) resp).notes.map Note.content
          = notes.map Note.content
        ∧ (handleDragEnd notes folders activeId (some target) resp).notes.map Note.tags
          = notes.map Note.tags
        ∧ (handleDragEnd notes folders activeId (some target) resp).notes.map Note.color
          = notes.map Note.color) := by
  have hguard : strictEqTarget note.folder_id (resolveTarget target) = false := by
    cases hg : strictEqTarget note.folder_id (resolveTarget target) with
    | false => rfl
    | true => exact absurd (strictEq_imp_sem _ _ hg) hne
  unfold handleDragEnd
  rw [hfind]
  cases resp with
  | ok =>
    refine ⟨by simp [hguard], ?_, ?_, ?_, ?_, ?_⟩ <;>
      · simp only [hguard, Bool.false_eq_true, if_false, List.map_map]
        apply List.map_congr_left
        intro n _
        simp only [Function.comp]
        split <;> rfl
  | httpError => exact ⟨by simp [hguard], by simp [hguard], by simp [hguard],
      by simp [hguard], by simp [hguard], by simp [hguard]⟩
  | transportError msg => exact ⟨by simp [hguard], by simp [hguard], by simp [hguard],
      by simp [hguard], by simp [hguard], by simp [hguard]⟩

/-- Witness for C3: the spec's example note
`{id:1, title:"T", content:"C", tags:["x"], color:"#fff", folder_id:2}`
moved to folder `3`. -/
theorem c3_move_request_body_witness :
    ([(⟨1, "T", "C", ["x"], "#fff", .num 2⟩ : Note)].find? (fun n => n.id == 1)
        = some ⟨1, "T", "C", ["x"], "#fff", .num 2⟩)
    ∧ semFolder (JNum.num 2) ≠ resolveTarget (.folder 3)
    ∧ ((handleDragEnd [⟨1, "T", "C", ["x"], "#fff", .num 2⟩] [] 1
          (some (.folder 3)) .ok).request
        = some ⟨"T", "C", ["x"], "#fff", some 3⟩) :=
  ⟨by decide, by decide,
   (c3_move_request_body [⟨1, "T", "C", ["x"], "#fff", .num 2⟩] [] 1 (.folder 3) .ok
      ⟨1, "T", "C", ["x"], "#fff", .num 2⟩ (by decide) (by decide)).1⟩

/-- C4: whenever the update request of a drag-and-drop move fails (non-2xx
response or transport error), the note list is unchanged — the moved note's
`folder_id` keeps its pre-move value, local state being mutated only after a
success response — and an error toast is surfaced. -/
theorem c4_failed_move (notes : List Note) (folders : List Folder)
    (activeId : Nat) (over : Option DropRef) (resp : NetResponse)
    (hfail : resp ≠ .ok)
    (hreq : (handleDragEnd notes folders activeId over resp).request ≠ none) :
    (handleDragEnd notes folders activeId over resp).notes = notes
    ∧ ∃ msg, (handleDragEnd notes folders activeId over resp).toast
        = some ⟨msg, .error⟩ := by
  cases over with
  | none => simp [handleDragEnd] at hreq
  | some dropRef =>
    cases hfind : notes.find? (fun n => n.id == activeId) with
    | none => simp [handleDragEnd, hfind] at hreq
    | some note =>
      by_cases hguard : strictEqTarget note.folder_id (resolveTarget dropRef) = true
      · simp [handleDragEnd, hfind, hguard] at hreq
      · rw [Bool.not_eq_true] at hguard
        cases resp with
        | ok => exact absurd rfl hfail
        | httpError =>
          refine ⟨?_, "Failed to move note", ?_⟩ <;> simp [handleDragEnd, hfind, hguard]
        | transportError msg =>
          refine ⟨?_, msg, ?_⟩ <;> simp [handleDragEnd, hfind, hguard]

/-- Witness for C4: a filed note dropped on the unfiled container with an
HTTP error response. -/
theorem c4_failed_move_witness :
    (NetResponse.httpError ≠ NetResponse.ok)
    ∧ ((handleDragEnd [⟨1, "T", "C", [], "#fff", .num 2⟩] [] 1
          (some .unfiled) .httpError).request ≠ none)
    ∧ ((handleDragEnd [⟨1, "T", "C", [], "#fff", .num 2⟩] [] 1
          (some .unfiled) .httpError).notes = [⟨1, "T", "C", [], "#fff", .num 2⟩]
        ∧ ∃ msg, (handleDragEnd [⟨1, "T", "C", [], "#fff", .num 2⟩] [] 1
            (some .unfiled) .httpError).toast = some ⟨msg, .error⟩) :=
  ⟨by decide, by decide,
   c4_failed_move [⟨1, "T", "C", [], "#fff", .num 2⟩] [] 1 (some .unfiled) .httpError
     (by decide) (by decide)⟩

/-! ## Search/tag filtering and the displayed counts
(App.tsx lines 585-588, 635; `HierarchicalFolderSection` lines 273 and 286;
`UnfiledNotesSection` line 381; App wiring lines 810-811 and 831-833). -/

/-- Boolean prefix test on character lists, modelling the start of
`String.prototype.includes`. -/
def isPrefB : List Char → List Char → Bool
  | [], _ => true
  | _ :: _, [] => false
  | a :: as, b :: bs => a == b && isPrefB as bs

/-- Boolean infix test on character lists. -/
def isInfB : List Char → List Char → Bool
  | needle, [] => needle.isEmpty
  | needle, h :: t => isPrefB needle (h :: t) || isInfB needle t

/-- JavaScript `String.prototype.toLowerCase`, as the character list of the
lowered string. -/
def toLowerL (s : String) : List Char :=
  s.toList.map Char.toLower

/-- JavaScript `hay.includes(sub)` on (already lowered) character lists. -/
def strIncludes (hay sub : List Char) : Bool :=
  isInfB sub hay

/-- The combined search-and-tag predicate of line 585-588:
`(activeTag ? (n.tags||[]).includes(activeTag) : true) &&
(n.title.toLowerCase().includes(search.toLowerCase()) ||
 n.content.toLowerCase().includes(search.toLowerCase()))`.
An absent tag chip (or the falsy empty string) disables the tag test. -/
def searchTagPred (activeTag : Option String) (search : String) (n : Note) : Bool :=
  (match activeTag with
   | none => true
   | some t => if t = "" then true else n.tags.contains t)
  && (strIncludes (toLowerL n.title) (toLowerL search)
      || strIncludes (toLowerL n.content) (toLowerL search))

/-- `searchAndTagFilteredNotes` (App.tsx line 585). -/
def searchAndTagFilteredNotes (notes : List Note) (activeTag : Option String)
    (search : String) : List Note :=
  notes.filter (searchTagPred activeTag search)

/-- The unfiled test of line 635:
`n.folder_id === null || n.folder_id === undefined`. -/
def isUnfiledJ (v : JNum) : Bool :=
  v == JNum.null || v == JNum.undef

/-- The count displayed in a folder header (`folderNotes.length`,
`HierarchicalFolderSection` lines 273/286): the section receives the FULL
note list from App (`notes={notes}`, line 832, also for subfolders at line
320), and filters it by `n.folder_id === folder.id`. -/
def displayedFolderCount (notes : List Note) (folderId : Nat) : Nat :=
  (notes.filter (fun n => n.folder_id == JNum.num folderId)).length

/-- The count displayed on the unfiled section (`notes.length` at line 381,
where App passes `notesWithoutFolder`, the search/tag-filtered notes with
`null`/`undefined` `folder_id`, lines 635 and 810-811). -/
def displayedUnfiledCount (notes : List Note) (activeTag : Option String)
    (search : String) : Nat :=
  ((searchAndTagFilteredNotes notes activeTag search).filter
    (fun n => isUnfiledJ n.folder_id)).length

/-- The folder count the claim describes: computed from the search/tag
filtered list. -/
def claimedFolderCount (notes : List Note) (activeTag : Option String)
    (search : String) (folderId : Nat) : Nat :=
  ((searchAndTagFilteredNotes notes activeTag search).filter
    (fun n => n.folder_id == JNum.num folderId)).length

/-- Concrete note for the C7 counterexample. -/
def cxFiledNote : Note := ⟨1, "alpha", "", [], "#fff", .num 1⟩

/-- C7 counterexample: with the search filter `"zzz"` active, the note list
`[{id:1, title:"alpha", folder_id:1}]` filters to nothing, so the claim says
folder `1` displays count `0`; the code displays `1`, because App passes the
unfiltered note list to the folder sections. -/
theorem c7_count_counterexample :
    displayedFolderCount [cxFiledNote] 1 = 1
    ∧ claimedFolderCount [cxFiledNote] none "zzz" 1 = 0 := by
  decide

/-- C7 (amended): the count displayed next to a folder equals the number of
notes in the FULL (unfiltered) note list whose `folder_id` strictly equals
the folder's id — which coincides with the search/tag-filtered count exactly
in the unfiltered render (empty search, no active tag) — while the unfiled
section's count does equal the number of search/tag-filtered notes whose
`folder_id` is `null` or absent. -/
theorem c7_displayed_counts (notes : List Note) (activeTag : Option String)
    (search : String) (folderId : Nat) :
    displayedFolderCount notes folderId
        = claimedFolderCount notes none "" folderId
    ∧ displayedFolderCount notes folderId
        = (notes.filter (fun n => n.folder_id == JNum.num folderId)).length
    ∧ displayedUnfiledCount notes activeTag search
        = ((searchAndTagFilteredNotes notes activeTag search).filter
            (fun n => n.folder_id = JNum.null ∨ n.folder_id = JNum.undef)).length := by
  refine ⟨?_, rfl, ?_⟩
  · have hinf : ∀ h : List Char, isInfB [] h = true := by
      intro h
      cases h <;> simp [isInfB, isPrefB, List.isEmpty]
    have hall : searchAndTagFilteredNotes notes none "" = notes := by
      apply List.filter_eq_self.mpr
      intro n _
      simp [searchTagPred, strIncludes, toLowerL, hinf]
    unfold claimedFolderCount
    rw [hall]
    rfl
  · unfold displayedUnfiledCount
    congr 1
    apply List.filter_congr
    intro n _
    cases hn : n.folder_id <;> simp [isUnfiledJ, hn]

/-! ## Client-side validation (NoteForm `handleSubmit` lines 620-641 of the
form component; App `handleCreateFolder` lines 623-632). -/

/-- JavaScript `String.prototype.trim`: strip leading and trailing
whitespace. -/
def jsTrim (s : String) : String :=
  ⟨((s.toList.dropWhile Char.isWhitespace).reverse.dropWhile
      Char.isWhitespace).reverse⟩

/-- The local state of the note form. -/
structure NoteFormState where
  title : String
  content : String
  tags : List String
  color : String
  folderId : Option Nat
  tagInput : String
deriving DecidableEq, Repr

/-- The payload handed to `onSubmit` (which App turns into the POST/PUT
request). -/
structure NoteSubmission where
  id : Option Nat
  title : String
  content : String
  tags : List String
  color : String
  folder_id : Option Nat
deriving DecidableEq, Repr

/-- Fresh note-form state after a create submission. -/
def clearedNoteForm : NoteFormState :=
  ⟨"", "", [], "#6366f1", none, ""⟩

/-- NoteForm `handleSubmit`: `if (!title.trim()) return;` then
`onSubmit({id, title: title.trim(), content, tags, color, folder_id})`, and
the fields are reset only when creating (no `editingNote`). Returns the
submission (if any) and the next form state. -/
def noteFormHandleSubmit (st : NoteFormState) (editing : Option Note) :
    Option NoteSubmission × NoteFormState :=
  if jsTrim st.title = "" then
    (none, st)
  else
    (some ⟨editing.map Note.id, jsTrim st.title, st.content, st.tags, st.color, st.folderId⟩,
     if editing.isSome then st else clearedNoteForm)

/-- The local state behind the create-folder form in App. -/
structure CreateFolderFormState where
  newFolderName : String
  newFolderIcon : String
  showCreateFolder : Bool
  creatingSubfolderFor : Option Nat
deriving DecidableEq, Repr

/-- JSON body of `POST /api/folders` as built by `createFolder`. -/
structure FolderCreateBody where
  name : String
  color : String
  icon : String
  parent_id : Option Nat
deriving DecidableEq, Repr

/-- `creatingSubfolderFor || undefined` (line 626): `null` and `0` collapse
to an absent `parent_id`. -/
def jsOrNone : Option Nat → Option Nat
  | none => none
  | some n => if n = 0 then none else some n

/-- App `handleCreateFolder`: `if (newFolderName.trim())` guards the call to
`createFolder(newFolderName.trim(), '#6366f1', newFolderIcon,
creatingSubfolderFor || undefined)` and the state reset; otherwise nothing
happens. -/
def appHandleCreateFolder (st : CreateFolderFormState) :
    Option FolderCreateBody × CreateFolderFormState :=
  if jsTrim st.newFolderName = "" then
    (none, st)
  else
    (some ⟨jsTrim st.newFolderName, "#6366f1", st.newFolderIcon,
           jsOrNone st.creatingSubfolderFor⟩,
     ⟨"", "📁", false, none⟩)

/-- C8: submitting the note form with an empty or whitespace-only title
(trim = empty), or the create-folder form with an empty or whitespace-only
name, issues no request and leaves the form state unchanged. -/
theorem c8_blank_validation (nst : NoteFormState) (editing : Option Note)
    (fst : CreateFolderFormState)
    (htitle : jsTrim nst.title = "") (hname : jsTrim fst.newFolderName = "") :
    noteFormHandleSubmit nst editing = (none, nst)
    ∧ appHandleCreateFolder fst = (none, fst) := by
  constructor
  · unfold noteFormHandleSubmit
    rw [if_pos htitle]
  · unfold appHandleCreateFolder
    rw [if_pos hname]

/-- Witness for C8 with whitespace-only inputs: a three-space title and a
tab-space folder name. -/
theorem c8_blank_validation_witness :
    ((jsTrim "   " = "")
      ∧ (jsTrim "\t " = ""))
    ∧ (noteFormHandleSubmit ⟨"   ", "c", [], "#fff", none, ""⟩ none
        = (none, ⟨"   ", "c", [], "#fff", none, ""⟩)
      ∧ appHandleCreateFolder ⟨"\t ", "📁", true, some 3⟩
        = (none, ⟨"\t ", "📁", true, some 3⟩)) :=
  ⟨⟨by decide, by decide⟩,
   c8_blank_validation ⟨"   ", "c", [], "#fff", none, ""⟩ none
     ⟨"\t ", "📁", true, some 3⟩ (by decide) (by decide)⟩

/-! ## Cycle safety of the recursive rendering (C6)

`HierarchicalFolderSection` (App.tsx lines 313-335) renders a folder node and
recurses into `folder.children`; the recursion is modelled fuel-indexed by
`renderIds`, collecting the visited folder ids.  The claim that the traversal
of every tree reachable from the root list terminates is expressed as
stabilization: with the input length as fuel the traversal has already
reached a fixpoint, so no node is ever visited at depth beyond the input
size — in particular a `parent_id` cycle (whose members are never reachable
from the root list) cannot cause unbounded recursion. -/

/-- Fuel-indexed recursive rendering of one folder subtree: visit the node,
then (given fuel) recurse into its children lists. -/
def renderIds (h : Hierarchy) : Nat → Nat → List Nat
  | 0, x => [x]
  | fuel + 1, x => x :: ((h.childMap x).map (fun c => renderIds h fuel c)).join

/-- Fuel-indexed rendering of the whole forest from the root list. -/
def renderForest (h : Hierarchy) (fuel : Nat) : List Nat :=
  (h.rootFolders.map (fun r => renderIds h fuel r)).join

/-- A descent path in the built graph, listed from the current node back to a
root: consecutive elements are child/parent, and the final element is in the
root list. -/
def IsChain (l : List Folder) (ch : List Nat) : Prop :=
  List.Chain' (fun a b => a ∈ (organizeHierarchically l).childMap b) ch
  ∧ ∃ r, ch.getLast? = some r ∧ r ∈ (organizeHierarchically l).rootFolders

theorem id_inj (l : List Folder) (hnd : (l.map Folder.id).Nodup)
    {f g : Folder} (hf : f ∈ l) (hg : g ∈ l) (hid : f.id = g.id) : f = g := by
  by_contra hne
  have hpw : l.Pairwise (fun a b => a.id ≠ b.id) := List.pairwise_map.mp hnd
  have hsymm : Symmetric (fun a b : Folder => a.id ≠ b.id) := fun a b hab => Ne.symm hab
  exact absurd hid (List.Pairwise.forall hsymm hpw hf hg hne)

/-- Every element of a descent path is an id of the input list. -/
theorem isChain_subset (l : List Folder) (ch : List Nat) (hc : IsChain l ch) :
    ∀ a ∈ ch, a ∈ l.map Folder.id := by
  intro a ha
  obtain ⟨⟨iv, hiv⟩, hget⟩ := List.mem_iff_get.mp ha
  by_cases hlast : iv = ch.length - 1
  · obtain ⟨r, hr1, hr2⟩ := hc.2
    have hne : ch ≠ [] := by
      intro hnil
      rw [hnil] at hr1
      cases hr1
    have hgl : ch.getLast hne = r := by
      have h2 := List.getLast?_eq_getLast ch hne
      rw [h2] at hr1
      exact Option.some.inj hr1
    have har : a = r := by
      rw [← hget, ← hgl, List.getLast_eq_get ch hne]
      congr 1
      exact Fin.ext hlast
    obtain ⟨f, hfl, hfid, _⟩ := (mem_rootFolders_iff l r).mp hr2
    exact List.mem_map.mpr ⟨f, hfl, by rw [hfid, ← har]⟩
  · have hlt : iv < ch.length - 1 := by omega
    have hrel : ch.get ⟨iv, hiv⟩
        ∈ (organizeHierarchically l).childMap (ch.get ⟨iv + 1, by omega⟩) :=
      List.chain'_iff_get.mp hc.1 iv hlt
    rw [hget] at hrel
    obtain ⟨f, hfl, hfid, _⟩ := (mem_childMap_iff l _ a).mp hrel
    exact List.mem_map.mpr ⟨f, hfl, hfid⟩

/-- Extending a duplicate-free descent path by a child stays duplicate-free:
a child of the path's head cannot already occur on the path (its unique
parent pins it under the head, and the root end has no parent). -/
theorem chain_extend (l : List Folder) (hnd : (l.map Folder.id).Nodup)
    (x : Nat) (rest : List Nat) (c : Nat)
    (hc : IsChain l (x :: rest)) (hnodup : (x :: rest).Nodup)
    (hmem : c ∈ (organizeHierarchically l).childMap x) :
    IsChain l (c :: x :: rest) ∧ (c :: x :: rest).Nodup := by
  obtain ⟨f, hfl, hfid, hfpar, hx0, hxids⟩ := (mem_childMap_iff l x c).mp hmem
  have hnotin : c ∉ x :: rest := by
    intro hcin
    obtain ⟨⟨iv, hiv⟩, hget⟩ := List.mem_iff_get.mp hcin
    by_cases hlast : iv = (x :: rest).length - 1
    · obtain ⟨r, hr1, hr2⟩ := hc.2
      have hne : x :: rest ≠ [] := by simp
      have hgl : (x :: rest).getLast hne = r := by
        have h2 := List.getLast?_eq_getLast (x :: rest) hne
        rw [h2] at hr1
        exact Option.some.inj hr1
      have hcr : c = r := by
        rw [← hget, ← hgl, List.getLast_eq_get (x :: rest) hne]
        congr 1
        exact Fin.ext hlast
      obtain ⟨g, hgl2, hgid, hgatt⟩ := (mem_rootFolders_iff l r).mp hr2
      have hgf : g = f := id_inj l hnd hgl2 hfl (by rw [hgid, ← hcr, hfid])
      rw [hgf, attaches_of_parent _ f x hfpar] at hgatt
      rw [decide_eq_false_iff_not] at hgatt
      exact hgatt ⟨hx0, hxids⟩
    · have hlt : iv < (x :: rest).length - 1 := by omega
      have hrel : (x :: rest).get ⟨iv, hiv⟩
          ∈ (organizeHierarchically l).childMap ((x :: rest).get ⟨iv + 1, by omega⟩) :=
        List.chain'_iff_get.mp hc.1 iv hlt
      rw [hget] at hrel
      obtain ⟨g, hgl2, hgid, hgpar, _, _⟩ := (mem_childMap_iff l _ c).mp hrel
      have hgf : g = f := id_inj l hnd hgl2 hfl (by rw [hgid, hfid])
      have hsucc : (x :: rest).get ⟨iv + 1, by omega⟩ = x := by
        rw [hgf, hfpar] at hgpar
        exact Option.some.inj hgpar.symm
      have hzero : (x :: rest).get ⟨0, by simp⟩ = x := rfl
      have hij := hnodup.get_inj_iff.mp (hsucc.trans hzero.symm)
      have : iv + 1 = 0 := congrArg Fin.val hij
      omega
  refine ⟨⟨List.chain'_cons.mpr ⟨hmem, hc.1⟩, ?_⟩, List.nodup_cons.mpr ⟨hnotin, hnodup⟩⟩
  rw [List.getLast?_cons_cons]
  exact hc.2

/-- Along any duplicate-free descent path, once the remaining fuel plus the
path length covers the input size, adding fuel does not change the rendered
traversal: the recursion has bottomed out. -/
theorem renderIds_stab (l : List Folder) (hnd : (l.map Folder.id).Nodup) :
    ∀ fuel k x rest, IsChain l (x :: rest) → (x :: rest).Nodup →
      l.length ≤ fuel + (x :: rest).length →
      renderIds (organizeHierarchically l) (fuel + k) x
        = renderIds (organizeHierarchically l) fuel x := by
  intro fuel
  induction fuel with
  | zero =>
    intro k x rest hch hnodup hlen
    have hempty : (organizeHierarchically l).childMap x = [] := by
      rw [List.eq_nil_iff_forall_not_mem]
      intro c hcmem
      obtain ⟨hch', hnd'⟩ := chain_extend l hnd x rest c hch hnodup hcmem
      have hle : (c :: x :: rest).length ≤ (l.map Folder.id).length :=
        (List.subperm_of_subset hnd' (fun a ha => isChain_subset l _ hch' a ha)).length_le
      rw [List.length_map] at hle
      simp only [List.length_cons] at hle hlen
      omega
    cases k with
    | zero => rfl
    | succ m => simp [renderIds, hempty]
  | succ m ih =>
    intro k x rest hch hnodup hlen
    have harith : m + 1 + k = (m + k) + 1 := by omega
    rw [harith]
    show renderIds (organizeHierarchically l) ((m + k) + 1) x
        = renderIds (organizeHierarchically l) (m + 1) x
    simp only [renderIds, List.cons.injEq, true_and]
    congr 1
    apply List.map_congr_left
    intro c hcmem
    obtain ⟨hch', hnd'⟩ := chain_extend l hnd x rest c hch hnodup hcmem
    apply ih k c (x :: rest) hch' hnd'
    simp only [List.length_cons] at hlen ⊢
    omega

/-- C6: for every folder list with unique ids — including lists containing a
`parent_id` cycle such as `{id:1, parent_id:2}, {id:2, parent_id:1}` —
recursively traversing every tree reachable from the built root list
terminates: with fuel equal to the input length the traversal is already at
its fixpoint, so every reachable node is visited at a finite depth bounded by
the input size and no unbounded recursion occurs. -/
theorem render_reachable_terminates (l : List Folder)
    (hnd : (l.map Folder.id).Nodup) (fuel : Nat) (hfuel : l.length ≤ fuel) :
    renderForest (organizeHierarchically l) fuel
      = renderForest (organizeHierarchically l) l.length := by
  unfold renderForest
  congr 1
  apply List.map_congr_left
  intro r hr
  have hch : IsChain l [r] := ⟨List.chain'_singleton r, r, rfl, hr⟩
  have heq : fuel = l.length + (fuel - l.length) := by omega
  rw [heq]
  exact renderIds_stab l hnd l.length (fuel - l.length) r [] hch
    (List.nodup_singleton r) (by simp)

/-- Witness for C6 at the claim's cycle example
`[{id:1, parent_id:2}, {id:2, parent_id:1}]` with fuel `5`. -/
theorem render_reachable_terminates_witness :
    ((([⟨1, "a", "c", none, some 2⟩, ⟨2, "b", "c", none, some 1⟩] : List Folder).map
        Folder.id).Nodup)
    ∧ (([⟨1, "a", "c", none, some 2⟩, ⟨2, "b", "c", none, some 1⟩] : List Folder).length ≤ 5)
    ∧ renderForest
        (organizeHierarchically [⟨1, "a", "c", none, some 2⟩, ⟨2, "b", "c", none, some 1⟩]) 5
      = renderForest
          (organizeHierarchically [⟨1, "a", "c", none, some 2⟩, ⟨2, "b", "c", none, some 1⟩])
          ([⟨1, "a", "c", none, some 2⟩, ⟨2, "b", "c", none, some 1⟩] : List Folder).length :=
  ⟨by decide, by decide,
   render_reachable_terminates [⟨1, "a", "c", none, some 2⟩, ⟨2, "b", "c", none, some 1⟩]
     (by decide) 5 (by decide)⟩

end NotesApp
